import Mathlib

/-!
Verification development for the OTS teacher-registration bot
(`src/index.js`, with the near-duplicate variants `src/unnamed/part_000`
and `src/unnamed/part_001`).

The JavaScript program is shallowly embedded: sessions are a structure,
the message handler, admin callback handler, payment webhook, fee policy
and validators are Lean functions translated branch-for-branch from the
source.  Timestamps (`Date.now()`) are modelled as integers passed in
explicitly; network calls (Chapa, Telegram sends) are modelled as oracle
inputs describing the outcome of the call.
-/

namespace OTS

/-- Characters treated as whitespace by the embedding of the JavaScript
string operations (`trim`, the regex class `\s`), restricted to the ASCII
whitespace characters. -/
def jsWhitespace (c : Char) : Bool :=
  c = ' ' || c = '\t' || c = '\n' || c = '\r' || c = '\x0b' || c = '\x0c'

/-- Embedding of JavaScript `String.prototype.trim` on character lists:
drop whitespace from both ends. -/
def jsTrimChars (l : List Char) : List Char :=
  ((l.dropWhile jsWhitespace).reverse.dropWhile jsWhitespace).reverse

/-- Embedding of JavaScript `text.trim()`. -/
def jsTrim (s : String) : String :=
  String.mk (jsTrimChars s.toList)

/-- Embedding of JavaScript `text.length` (number of characters; the
sources only measure plain text, where this agrees with UTF-16 length). -/
def jsLength (s : String) : Nat :=
  s.toList.length

/-- ASCII lower-casing of one character, as JavaScript `toLowerCase`
acts on the ASCII inputs the sources compare against. -/
def jsLowerChar (c : Char) : Char :=
  if 'A' ≤ c ∧ c ≤ 'Z' then Char.ofNat (c.toNat + 32) else c

/-- Embedding of JavaScript `s.toLowerCase()`. -/
def jsToLower (s : String) : String :=
  String.mk (s.toList.map jsLowerChar)

/-- Does the string contain the given character (JavaScript
`s.includes(c)` for a one-character needle)? -/
def containsChar (s : String) (c : Char) : Bool :=
  s.toList.any (fun d => d = c)

/-- Is `pat` a prefix of `l`? (helper for substring containment) -/
def isPre : List Char → List Char → Bool
  | [], _ => true
  | _ :: _, [] => false
  | p :: ps, c :: cs => p = c && isPre ps cs

/-- Does `l` contain `pat` as a contiguous substring?  Embedding of
JavaScript `url.includes(pat)` for multi-character needles. -/
def hasSub (pat : List Char) : List Char → Bool
  | [] => isPre pat []
  | c :: rest => isPre pat (c :: rest) || hasSub pat rest

/-- JavaScript `s.includes(pat)`. -/
def includesStr (s pat : String) : Bool :=
  hasSub pat.toList s.toList

/-- Collection step of a registration session (`user.step`; the
JavaScript `null` is `Option.none` at the use sites). -/
inductive Step
  | name
  | phone
  | youtube
  | email
  | subject
  | completed
deriving DecidableEq, Repr

/-- Position of a step in the fixed collection sequence
name → phone → youtube → email → subject → completed. -/
def stepIdx : Step → Nat
  | .name => 0
  | .phone => 1
  | .youtube => 2
  | .email => 3
  | .subject => 4
  | .completed => 5

/-- Lifecycle status of a registration session (`user.status`). -/
inductive Status
  | idle
  | collecting
  | pending_review
  | approved
  | reapply_required
  | payment_verified
deriving DecidableEq, Repr

/-- A registration session (`users[chatId]` in the sources).  Unset
JavaScript fields are `none`; the numeric timestamps `createdAt` and
`lastActivity` use `0` for the JavaScript falsy values `undefined`/`0`
(the sources only ever store `Date.now()`, which is positive). -/
structure Session where
  step : Option Step := none
  status : Status := .idle
  createdAt : Int := 0
  lastActivity : Int := 0
  name : Option String := none
  phone : Option String := none
  youtube : Option String := none
  email : Option String := none
  subject : Option String := none
  penalty : Option Bool := none
  tx_ref : Option String := none
  paidAmount : Option ℚ := none
  commission : Option ℚ := none
  paymentDate : Option Int := none
deriving DecidableEq, Repr

/-- `PRICING.STANDARD` (index.js line 32). -/
def PRICING_STANDARD : Nat := 99

/-- `PRICING.PENALTY` (index.js line 32). -/
def PRICING_PENALTY : Nat := 149

/-- `TEACHER_PERCENT` (index.js line 33). -/
def TEACHER_PERCENT : ℚ := 55 / 100

/-- `SESSION_TIMEOUT` = 30 minutes in milliseconds (index.js line 46). -/
def SESSION_TIMEOUT : Int := 30 * 60 * 1000

/-- Embedding of `isValidYouTubeUrl` (index.js lines 65-72): the url is
non-empty and contains one of five fixed substrings. -/
def isValidYouTubeUrl (url : String) : Bool :=
  if url.toList.isEmpty then false
  else
    includesStr url "youtube.com/channel/" ||
    includesStr url "youtube.com/c/" ||
    includesStr url "youtube.com/user/" ||
    includesStr url "youtu.be/" ||
    includesStr url "youtube.com/@"

/-- Embedding of `isValidEmail` (index.js lines 74-77): the literal
`skip` case-insensitively, otherwise the string must contain an `@`
and a `.` (anywhere, in any order, whitespace allowed). -/
def isValidEmail (email : String) : Bool :=
  if jsToLower email = "skip" then true
  else containsChar email '@' && containsChar email '.'

/-- Character class `[^\s@]` of the part_001 email regex. -/
def emailChar (c : Char) : Bool :=
  !jsWhitespace c && c ≠ '@'

/-- Consume the rest of `[^\s@]+@` after its first character and return
the remainder after the `@` (helper for the part_001 email regex). -/
def emailLocalAux : List Char → Option (List Char)
  | [] => none
  | c :: rest =>
    if c = '@' then some rest
    else if emailChar c then emailLocalAux rest
    else none

/-- Consume `[^\s@]+@` and return the remainder after the `@`. -/
def emailLocal : List Char → Option (List Char)
  | [] => none
  | c :: rest => if emailChar c then emailLocalAux rest else none

/-- Backtracking match of `[^\s@]*\.[^\s@]+$`: either the current
character is the literal dot and a non-empty `[^\s@]+` run closes the
string, or the current character extends the run before the dot. -/
def emailDotAux : List Char → Bool
  | [] => false
  | c :: rest =>
    (c = '.' && !rest.isEmpty && rest.all emailChar) ||
    (emailChar c && emailDotAux rest)

/-- Does the remainder after the `@` match `[^\s@]+\.[^\s@]+$`? -/
def emailTail : List Char → Bool
  | [] => false
  | c :: rest => emailChar c && emailDotAux rest

/-- Match of the part_001 email regex `^[^\s@]+@[^\s@]+\.[^\s@]+$`. -/
def emailRegexTest (l : List Char) : Bool :=
  match emailLocal l with
  | none => false
  | some r => emailTail r

/-- Embedding of `isValidEmail` from part_001 (lines 77-81): the literal
`skip` case-insensitively, otherwise the regex
`^[^\s@]+@[^\s@]+\.[^\s@]+$` must match. -/
def isValidEmailRegex (email : String) : Bool :=
  if jsToLower email = "skip" then true
  else emailRegexTest email.toList

/-- Is `c` an ASCII decimal digit? -/
def isDigitChar (c : Char) : Bool :=
  '0' ≤ c && c ≤ '9'

/-- After stripping whitespace, does the phone consist of an optional
`+251` or `0` followed by `9` and exactly 8 digits?  Core of the regex
`^(\+251|0)?9\d{8}$`. -/
def phoneCore (l : List Char) : Bool :=
  match l with
  | '9' :: ds => ds.length = 8 && ds.all isDigitChar
  | _ => false

/-- Embedding of `isValidPhone` (index.js lines 79-82). -/
def isValidPhone (phone : String) : Bool :=
  let clean := phone.toList.filter (fun c => !jsWhitespace c)
  match clean with
  | '+' :: '2' :: '5' :: '1' :: rest => phoneCore rest
  | '0' :: rest => phoneCore rest
  | l => phoneCore l

/-- Embedding of `getFee` (index.js lines 84-93).  `now` is `Date.now()`.
Returns the fee together with the updated session (`user.penalty` is
mutated in place by the source).  The float comparison
`(now - createdAt) / 3600000 > 24` is exactly `now - createdAt > 86400000`
over the integers.  `createdAt = 0` models the falsy values of
`!user.createdAt`. -/
def getFee (now : Int) (user : Session) : Nat × Session :=
  if user.createdAt = 0 then (PRICING_STANDARD, user)
  else if user.status = .reapply_required ∨ now - user.createdAt > 24 * 3600000 then
    (PRICING_PENALTY, { user with penalty := some true })
  else
    (PRICING_STANDARD, { user with penalty := some false })

/-- Embedding of `cleanupInactiveSessions` (index.js lines 95-105): the
sweep deletes exactly the sessions whose `lastActivity` is truthy and
older than `SESSION_TIMEOUT`, and whose status is `collecting` or
`idle`.  The user table is modelled as an association list. -/
def cleanupInactiveSessions (now : Int) (users : List (Nat × Session)) :
    List (Nat × Session) :=
  users.filter (fun p =>
    !(p.2.lastActivity ≠ 0 && now - p.2.lastActivity > SESSION_TIMEOUT &&
      (p.2.status = Status.collecting || p.2.status = Status.idle)))

/-- A structured Telegram contact share (`msg.contact`). -/
structure Contact where
  user_id : Nat
  phone_number : String
deriving DecidableEq, Repr

/-- A JavaScript runtime exception escaping a handler. -/
inductive JsErr
  | typeError
deriving DecidableEq, Repr

/-- Embedding of the body of the `bot.on("message")` handler of index.js
(lines 169-451) for a message from an actor with an existing session
that passed rate limiting and the admin-reply redirection: first
`user.lastActivity = Date.now()`, then the control buttons (Register,
Cancel, Back) in source order, then the step-specific branches.  `text`
is `msg.text` (`none` for contact shares and media messages), `contact`
is `msg.contact`.  Returns the updated session and the runtime exception
escaping the handler, if any. -/
def processMessage (now : Int) (chatId : Nat) (user0 : Session)
    (text : Option String) (contact : Option Contact) : Session × Option JsErr :=
  let user := { user0 with lastActivity := now }
  if text = some "📝 Register" then
    if user.status = .pending_review ∨ user.status = .approved ∨
        user.status = .payment_verified then
      (user, none)
    else
      ({ user with step := some .name, status := .collecting, createdAt := now }, none)
  else if text = some "❌ Cancel" then
    ({ user with step := none, status := .idle }, none)
  else if text = some "⬅️ Back" then
    (match user.step with
      | some .phone => { user with step := some .name }
      | some .youtube => { user with step := some .phone }
      | some .email => { user with step := some .youtube }
      | some .subject => { user with step := some .email }
      | _ => user,
     none)
  else if user.step = some .name then
    match text with
    | none => (user, none)
    | some t =>
      if jsLength t < 2 then (user, none)
      else ({ user with name := some (jsTrim t), step := some .phone }, none)
  else if user.step = some .phone then
    let byContact : Option String :=
      match contact with
      | some c => if c.user_id = chatId then some c.phone_number else none
      | none => none
    let pn : Option String :=
      match byContact with
      | some p => some p
      | none =>
        match text with
        | some t =>
          if !t.toList.isEmpty && t ≠ "⬅️ Back" && t ≠ "❌ Cancel" then some t
          else none
        | none => none
    match pn with
    | none => (user, none)
    | some p =>
      if !isValidPhone p then (user, none)
      else ({ user with phone := some p, step := some .youtube }, none)
  else if user.step = some .youtube then
    match text with
    | none => (user, none)
    | some t =>
      if t.toList.isEmpty || jsToLower t = "skip" then (user, none)
      else if !isValidYouTubeUrl t then (user, none)
      else ({ user with youtube := some (jsTrim t), step := some .email }, none)
  else if user.step = some .email then
    match text with
    | none => (user, some .typeError)
    | some t =>
      if !isValidEmail t then (user, none)
      else if jsToLower t = "skip" then
        ({ user with email := some "Not provided", step := some .subject }, none)
      else
        ({ user with email := some (jsTrim t), step := some .subject }, none)
  else if user.step = some .subject then
    match text with
    | none => (user, none)
    | some t =>
      if jsLength t < 2 then (user, none)
      else
        ({ user with subject := some (jsTrim t), step := some .completed,
                     status := .pending_review }, none)
  else
    (user, none)

/-- Decimal digit characters of `n`, most significant first, computed
with a fuel argument so that the definition is structurally recursive
(`natChars` supplies enough fuel). -/
def natCharsAux : Nat → Nat → List Char
  | 0, _ => []
  | fuel + 1, n =>
    if n < 10 then [Nat.digitChar n]
    else natCharsAux fuel (n / 10) ++ [Nat.digitChar (n % 10)]

/-- Decimal representation of a natural number, as JavaScript string
conversion renders the integers interpolated into `tx_ref`. -/
def natChars (n : Nat) : List Char :=
  natCharsAux (n + 1) n

/-- Value of a list of decimal digit characters. -/
def digitsVal (l : List Char) : Nat :=
  l.foldl (fun a c => 10 * a + (c.toNat - 48)) 0

/-- Embedding of JavaScript `Number(s)` restricted to the inputs reaching
it here: the empty string is `0`, a string of decimal digits is its
value, anything else is `NaN` (`none`). -/
def jsParseNat (l : List Char) : Option Nat :=
  if l.isEmpty then some 0
  else if l.all isDigitChar then some (digitsVal l) else none

/-- Characters after the last `-`, i.e. JavaScript
`s.split("-").pop()`. -/
def lastDashChunk (l : List Char) : List Char :=
  (l.reverse.takeWhile (fun c => c ≠ '-')).reverse

/-- Characters of the transaction reference minted at approval
(index.js line 472): `"tx-" + Date.now() + "-" + targetId`. -/
def mkTxRefChars (now target : Nat) : List Char :=
  "tx-".toList ++ natChars now ++ '-' :: natChars target

/-- The transaction reference minted at approval. -/
def mkTxRef (now target : Nat) : String :=
  String.mk (mkTxRefChars now target)

/-- Embedding of `Number(tx_ref.split("-").pop())` (index.js line 618),
the webhook's recovery of the owning actor identity. -/
def extractId (tx : String) : Option Nat :=
  jsParseNat (lastDashChunk tx.toList)

/-- The parsed callback payload of an inline-keyboard decision
(`query.data`): the source checks `query.data.startsWith("approve_")`
(resp. `reply_`, `reject_`) and reads the target as
`Number(query.data.split("_")[1])`. -/
inductive CbData
  | approve (target : Nat)
  | reply (target : Nat)
  | reject (target : Nat)
  | other
deriving DecidableEq, Repr

/-- Observable outbound effects of a handler, at the granularity the
claims need (which chat was messaged with which kind of content). -/
inductive Out
  | cbUserNotFound
  | cbUnauthorized
  | cbApproved
  | cbRejected
  | replyModeActivated
  | paymentLinkToUser (uid : Nat)
  | linkFailedToUser (uid : Nat)
  | rejectionNoticeToUser (uid : Nat)
  | paymentVerifiedToUser (uid : Nat)
  | paymentReceivedToAdmin
deriving DecidableEq, Repr

/-- The process-wide mutable state: the user table, the
`processedTransactions` set (as a list), and `adminReplyTarget`. -/
structure GlobalState where
  users : List (Nat × Session) := []
  processed : List String := []
  adminReplyTarget : Option Nat := none
deriving DecidableEq, Repr

/-- `users[id]` on the association-list user table. -/
def findUser (users : List (Nat × Session)) (id : Nat) : Option Session :=
  (users.find? (fun p => p.1 = id)).map (fun p => p.2)

/-- In-place update of `users[id]` (the source mutates the stored
object, so only an existing entry changes). -/
def setUser (users : List (Nat × Session)) (id : Nat) (u : Session) :
    List (Nat × Session) :=
  users.map (fun p => if p.1 = id then (id, u) else p)

/-- Embedding of the `bot.on("callback_query")` handler of index.js
(lines 454-592).  `admin` is `ADMIN_ID`, `fromId` is `query.from.id`,
`now` is `Date.now()`, `initOk` tells whether the Chapa
initialize call returned a success response (any API error or transport
failure lands in the catch block).  The `approve_` branch of index.js
performs no `ADMIN_ID` check; `reply_` and `reject_` do. -/
def handleCallback (admin fromId : Nat) (q : CbData) (now : Nat)
    (initOk : Bool) (st : GlobalState) : GlobalState × List Out :=
  match q with
  | .approve target =>
    match findUser st.users target with
    | none => (st, [Out.cbUserNotFound])
    | some targetUser =>
      let afterFee := (getFee (now : Int) targetUser).2
      let u2 := { afterFee with status := Status.approved,
                                tx_ref := some (mkTxRef now target) }
      if initOk then
        ({ st with users := setUser st.users target u2 },
         [Out.cbApproved, Out.paymentLinkToUser target])
      else
        ({ st with users := setUser st.users target u2 },
         [Out.linkFailedToUser target])
  | .reply target =>
    if fromId ≠ admin then (st, [Out.cbUnauthorized])
    else ({ st with adminReplyTarget := some target }, [Out.replyModeActivated])
  | .reject target =>
    if fromId ≠ admin then (st, [Out.cbUnauthorized])
    else
      match findUser st.users target with
      | none => (st, [Out.cbUserNotFound])
      | some u =>
        ({ st with users := setUser st.users target { u with status := .reapply_required } },
         [Out.cbRejected, Out.rejectionNoticeToUser target])
  | .other => (st, [])

/-- The body carried by a Chapa verification response
(`verify.data.data`): its claimed status and amount. -/
structure ChapaData where
  status : String
  amount : ℚ
deriving DecidableEq, Repr

/-- Embedding of the `POST /verify` webhook of index.js (lines 595-654).
`tx` is `req.body.tx_ref`, `outcome` describes the Chapa verification
call: `Except.error` when axios throws, `.ok none` when the response
carries no `data` object (reading `data.status` then throws, landing in
the catch block), `.ok (some d)` otherwise.  Returns the new state, the
HTTP status code sent, and the notifications sent. -/
def verifyWebhook (st : GlobalState) (tx : Option String)
    (outcome : Except Unit (Option ChapaData)) (now : Int) :
    GlobalState × Nat × List Out :=
  match tx with
  | none => (st, 400, [])
  | some t =>
    if st.processed.contains t then (st, 200, [])
    else
      match outcome with
      | .error _ => (st, 500, [])
      | .ok none => (st, 500, [])
      | .ok (some d) =>
        if d.status ≠ "success" then (st, 200, [])
        else
          match extractId t with
          | none => (st, 404, [])
          | some tid =>
            match findUser st.users tid with
            | none => (st, 404, [])
            | some u =>
              let u2 := { u with status := Status.payment_verified,
                                 paidAmount := some d.amount,
                                 commission := some (d.amount * TEACHER_PERCENT),
                                 paymentDate := some now }
              ({ st with users := setUser st.users tid u2,
                         processed := t :: st.processed },
               200,
               [Out.paymentVerifiedToUser tid, Out.paymentReceivedToAdmin])

/-- Embedding of the `POST /verify` webhook of the part_000 variant
(lines 700-780), which acknowledges every path with HTTP 200: missing
`tx_ref`, unknown session and non-success verification are logged and
acknowledged, and the catch block also answers 200. -/
def verifyWebhookP0 (st : GlobalState) (tx : Option String)
    (outcome : Except Unit (Option ChapaData)) (now : Int) :
    GlobalState × Nat × List Out :=
  match tx with
  | none => (st, 200, [])
  | some t =>
    if st.processed.contains t then (st, 200, [])
    else
      match outcome with
      | .error _ => (st, 200, [])
      | .ok none => (st, 200, [])
      | .ok (some d) =>
        if d.status = "success" then
          match extractId t with
          | none => (st, 200, [])
          | some tid =>
            match findUser st.users tid with
            | none => (st, 200, [])
            | some u =>
              let u2 := { u with status := Status.payment_verified,
                                 paidAmount := some d.amount,
                                 commission := some (d.amount * TEACHER_PERCENT),
                                 paymentDate := some now }
              ({ st with users := setUser st.users tid u2,
                         processed := t :: st.processed },
               200,
               [Out.paymentVerifiedToUser tid, Out.paymentReceivedToAdmin])
        else (st, 200, [])

/-! ## Theorems -/

/-- Claim C3: `getFee` returns the standard fee 99 and leaves the
penalty flag untouched when the session has no creation timestamp;
otherwise it returns 149 and sets the penalty flag when the status is
`reapply_required` or more than 24 hours have elapsed since `createdAt`,
and returns 99 and clears the flag in all remaining cases; the fee is a
function of `createdAt`, `status` and the current time only, so repeated
calls with the same inputs agree. -/
theorem getFee_spec (now : Int) (u : Session) :
    (u.createdAt = 0 → getFee now u = (99, u)) ∧
    (u.createdAt ≠ 0 →
      (u.status = Status.reapply_required ∨ now - u.createdAt > 24 * 3600000) →
      getFee now u = (149, { u with penalty := some true })) ∧
    (u.createdAt ≠ 0 → u.status ≠ Status.reapply_required →
      now - u.createdAt ≤ 24 * 3600000 →
      getFee now u = (99, { u with penalty := some false })) ∧
    (∀ v : Session, v.createdAt = u.createdAt → v.status = u.status →
      (getFee now v).1 = (getFee now u).1) := by
  refine ⟨?_, ?_, ?_, ?_⟩
  · intro h
    simp [getFee, h, PRICING_STANDARD]
  · intro h hcond
    simp only [getFee, if_neg h, if_pos hcond, PRICING_PENALTY]
  · intro h h1 h2
    have hcond : ¬(u.status = Status.reapply_required ∨ now - u.createdAt > 24 * 3600000) := by
      push_neg
      exact ⟨h1, h2⟩
    simp only [getFee, if_neg h, if_neg hcond, PRICING_STANDARD]
  · intro v hc hs
    simp only [getFee, hc, hs]
    split_ifs <;> rfl

/-- Witness for C3 at concrete inputs. -/
theorem getFee_spec_witness :
    getFee 100 { createdAt := 0 } = (99, { createdAt := 0 }) ∧
    getFee (30 * 3600000) { createdAt := 1, status := Status.pending_review } =
      (149, { createdAt := 1, status := Status.pending_review, penalty := some true }) ∧
    getFee (2 * 3600000) { createdAt := 1, status := Status.pending_review } =
      (99, { createdAt := 1, status := Status.pending_review, penalty := some false }) :=
  ⟨(getFee_spec 100 { createdAt := 0 }).1 rfl,
   (getFee_spec (30 * 3600000) { createdAt := 1, status := Status.pending_review }).2.1
     (by decide) (Or.inr (by decide)),
   (getFee_spec (2 * 3600000) { createdAt := 1, status := Status.pending_review }).2.2.1
     (by decide) (by decide) (by decide)⟩

/-- Claim C7: the idle sweep keeps every session whose status is
`pending_review`, `approved`, `reapply_required` or `payment_verified`,
and a session is removed only when its `lastActivity` is set, older than
`SESSION_TIMEOUT`, and its status is `idle` or `collecting`. -/
theorem cleanup_safe (now : Int) (users : List (Nat × Session)) (id : Nat)
    (s : Session) (hmem : (id, s) ∈ users) :
    ((s.status = Status.pending_review ∨ s.status = Status.approved ∨
      s.status = Status.reapply_required ∨ s.status = Status.payment_verified) →
      (id, s) ∈ cleanupInactiveSessions now users) ∧
    ((id, s) ∉ cleanupInactiveSessions now users →
      s.lastActivity ≠ 0 ∧ now - s.lastActivity > SESSION_TIMEOUT ∧
      (s.status = Status.idle ∨ s.status = Status.collecting)) := by
  constructor
  · intro hstat
    rw [cleanupInactiveSessions, List.mem_filter]
    refine ⟨hmem, ?_⟩
    rcases hstat with h | h | h | h <;> simp [h]
  · intro hout
    rw [cleanupInactiveSessions, List.mem_filter] at hout
    push_neg at hout
    have h2 := hout hmem
    simp at h2
    obtain ⟨⟨hla, hlt⟩, hst⟩ := h2
    exact ⟨hla, by omega, by tauto⟩

/-- Witness for C7 at a concrete store. -/
theorem cleanup_safe_witness :
    (1, ({ status := Status.pending_review, lastActivity := 1 } : Session)) ∈
      cleanupInactiveSessions 99999999
        [(1, { status := Status.pending_review, lastActivity := 1 })] :=
  (cleanup_safe 99999999 [(1, { status := Status.pending_review, lastActivity := 1 })] 1
    { status := Status.pending_review, lastActivity := 1 } (by simp)).1 (Or.inl rfl)

/-- Claim C10: at the `email` step, a message carrying no text payload
makes the handler throw a TypeError inside the email validator
(`undefined.toLowerCase()`); the session keeps its step and collected
fields (only `lastActivity`, already updated before the throw, changes),
and no validation re-prompt is issued. -/
theorem emailStep_typeError (now : Int) (cid : Nat) (s : Session)
    (contact : Option Contact) (hstep : s.step = some Step.email) :
    processMessage now cid s none contact =
      ({ s with lastActivity := now }, some JsErr.typeError) := by
  simp [processMessage, hstep]

/-- Witness for C10 at a concrete session. -/
theorem emailStep_typeError_witness :
    processMessage 3 1 { step := some Step.email, status := Status.collecting } none none =
      ({ step := some Step.email, status := Status.collecting, lastActivity := 3 },
       some JsErr.typeError) :=
  emailStep_typeError 3 1 { step := some Step.email, status := Status.collecting } none rfl

/-- Claim C4 (failing input): the index.js `approve_` branch performs no
`ADMIN_ID` check, so a caller with id 999 (admin id being 1) approving
target 42 still sets the target's status to `approved` and mints a
transaction reference — the evaluation of the embedded handler at this
input. -/
theorem approve_no_auth_check :
    handleCallback 1 999 (CbData.approve 42) 5 true
      { users := [(42, { step := some Step.completed, status := Status.pending_review,
                         createdAt := 1, lastActivity := 1 })] } =
    ({ users := [(42, { step := some Step.completed, status := Status.approved,
                        createdAt := 1, lastActivity := 1, penalty := some false,
                        tx_ref := some "tx-5-42" })] },
     [Out.cbApproved, Out.paymentLinkToUser 42]) := by decide

/-- Claim C9 (counterexample): at the `name` step the input `" a"` has
untrimmed length 2 but trimmed length 1; the claim says it is invalid and
mutates nothing, yet the handler accepts it, stores the trimmed text
`"a"` and advances the step to `phone` — the length check of index.js
line 229 uses the untrimmed text. -/
theorem nameStep_cex :
    jsLength (jsTrim " a") < 2 ∧
    (processMessage 5 1 { step := some Step.name, status := Status.collecting }
      (some " a") none).1.step = some Step.phone ∧
    (processMessage 5 1 { step := some Step.name, status := Status.collecting }
      (some " a") none).1.name = some "a" := by decide

/-- Claim C9 (amended): at the `name` step a non-control text is valid
iff its untrimmed length is at least 2; on success the trimmed text is
stored as the name and the step advances to `phone`, and on failure
(no text, or untrimmed length below 2) only `lastActivity` changes. -/
theorem nameStep_spec (now : Int) (cid : Nat) (s : Session)
    (text : Option String) (contact : Option Contact)
    (hstep : s.step = some Step.name)
    (hr : text ≠ some "📝 Register") (hc : text ≠ some "❌ Cancel")
    (hb : text ≠ some "⬅️ Back") :
    (∀ t, text = some t → 2 ≤ jsLength t →
      processMessage now cid s text contact =
        ({ s with lastActivity := now, name := some (jsTrim t),
                  step := some Step.phone }, none)) ∧
    ((text = none ∨ ∃ t, text = some t ∧ jsLength t < 2) →
      processMessage now cid s text contact = ({ s with lastActivity := now }, none)) := by
  constructor
  · rintro t rfl hlen
    simp [processMessage, hstep, hr, hc, hb, Nat.not_lt.mpr hlen]
  · rintro (rfl | ⟨t, rfl, hlen⟩)
    · simp [processMessage, hstep]
    · simp [processMessage, hstep, hr, hc, hb, hlen]

/-- Witness for the amended C9 at concrete inputs. -/
theorem nameStep_spec_witness :
    processMessage 7 1 { step := some Step.name } (some "ab") none =
      ({ step := some Step.phone, lastActivity := 7, name := some (jsTrim "ab") }, none) ∧
    processMessage 7 1 { step := some Step.name } (some "x") none =
      ({ step := some Step.name, lastActivity := 7 }, none) :=
  ⟨(nameStep_spec 7 1 { step := some Step.name } (some "ab") none rfl
      (by decide) (by decide) (by decide)).1 "ab" rfl (by decide),
   (nameStep_spec 7 1 { step := some Step.name } (some "x") none rfl
      (by decide) (by decide) (by decide)).2 (Or.inr ⟨"x", rfl, by decide⟩)⟩

/-- Claim C6 (counterexample): a Register message handled while the
session is at step `email` with status `collecting` resets the step to
`name` — a backward move of three steps that is neither a back action
nor a cancel, refuting the claim that no handled message moves the step
backward by more than one except on back/cancel. -/
theorem step_skip_backward_cex :
    (processMessage 5 1
      { step := some Step.email, status := Status.collecting, createdAt := 1, lastActivity := 1 }
      (some "📝 Register") none).1.step = some Step.name ∧
    stepIdx Step.name + 1 < stepIdx Step.email ∧
    ("📝 Register" : String) ≠ "⬅️ Back" ∧ ("📝 Register" : String) ≠ "❌ Cancel" := by
  decide

/-- Claim C6 (amended): every handled inbound message either leaves the
step unchanged, advances it exactly one position in the fixed sequence,
retreats it exactly one position on a back action, resets it to `none`
on cancel, or resets it to `name` on a register action. -/
theorem step_transition (now : Int) (cid : Nat) (s : Session)
    (text : Option String) (contact : Option Contact) :
    (processMessage now cid s text contact).1.step = s.step ∨
    (∃ a b, s.step = some a ∧
      (processMessage now cid s text contact).1.step = some b ∧
      stepIdx b = stepIdx a + 1) ∨
    (text = some "⬅️ Back" ∧ ∃ a b, s.step = some a ∧
      (processMessage now cid s text contact).1.step = some b ∧
      stepIdx a = stepIdx b + 1) ∨
    (text = some "❌ Cancel" ∧ (processMessage now cid s text contact).1.step = none) ∨
    (text = some "📝 Register" ∧
      (processMessage now cid s text contact).1.step = some Step.name) := by
  by_cases hr : text = some "📝 Register"
  · subst hr
    by_cases hblock : s.status = Status.pending_review ∨ s.status = Status.approved ∨
        s.status = Status.payment_verified
    · left
      simp [processMessage, hblock]
    · right; right; right; right
      exact ⟨rfl, by simp [processMessage, hblock]⟩
  by_cases hc : text = some "❌ Cancel"
  · subst hc
    right; right; right; left
    exact ⟨rfl, by simp [processMessage]⟩
  by_cases hb : text = some "⬅️ Back"
  · subst hb
    rcases hstep : s.step with _ | st
    · left
      simp [processMessage, hstep]
    · cases st
      · left; simp [processMessage, hstep]
      · right; right; left
        exact ⟨rfl, Step.phone, Step.name, rfl, by simp [processMessage, hstep], rfl⟩
      · right; right; left
        exact ⟨rfl, Step.youtube, Step.phone, rfl, by simp [processMessage, hstep], rfl⟩
      · right; right; left
        exact ⟨rfl, Step.email, Step.youtube, rfl, by simp [processMessage, hstep], rfl⟩
      · right; right; left
        exact ⟨rfl, Step.subject, Step.email, rfl, by simp [processMessage, hstep], rfl⟩
      · left; simp [processMessage, hstep]
  rcases hstep : s.step with _ | st
  · left
    simp [processMessage, hr, hc, hb, hstep]
  · cases st
    · -- name step
      have hdi : (processMessage now cid s text contact).1.step = some Step.name ∨
          (processMessage now cid s text contact).1.step = some Step.phone := by
        unfold processMessage
        rcases text with _ | t
        · simp [hstep]
        · by_cases hlen : jsLength t < 2 <;> simp [hr, hc, hb, hstep, hlen]
      rcases hdi with h | h
      · left; exact h
      · right; left; exact ⟨Step.name, Step.phone, rfl, h, rfl⟩
    · -- phone step
      have hdi : (processMessage now cid s text contact).1.step = some Step.phone ∨
          (processMessage now cid s text contact).1.step = some Step.youtube := by
        unfold processMessage
        rcases text with _ | t <;> rcases contact with _ | c
        · simp [hstep]
        · by_cases h1 : c.user_id = cid
          · by_cases h2 : isValidPhone c.phone_number <;> simp [hstep, h1, h2]
          · simp [hstep, h1]
        · have hb2 : ¬ t = "⬅️ Back" := fun h => hb (by rw [h])
          have hc2 : ¬ t = "❌ Cancel" := fun h => hc (by rw [h])
          by_cases hemp : t.data = []
          · simp [hr, hc, hb, hstep, hemp]
          · by_cases h2 : isValidPhone t <;>
              simp [hr, hc, hb, hstep, hb2, hc2, hemp, h2]
        · have hb2 : ¬ t = "⬅️ Back" := fun h => hb (by rw [h])
          have hc2 : ¬ t = "❌ Cancel" := fun h => hc (by rw [h])
          by_cases h1 : c.user_id = cid
          · by_cases h2 : isValidPhone c.phone_number <;>
              simp [hr, hc, hb, hstep, h1, h2]
          · by_cases hemp : t.data = []
            · simp [hr, hc, hb, hstep, h1, hemp]
            · by_cases h2 : isValidPhone t <;>
                simp [hr, hc, hb, hstep, h1, hb2, hc2, hemp, h2]
      rcases hdi with h | h
      · left; exact h
      · right; left; exact ⟨Step.phone, Step.youtube, rfl, h, rfl⟩
    · -- youtube step
      have hdi : (processMessage now cid s text contact).1.step = some Step.youtube ∨
          (processMessage now cid s text contact).1.step = some Step.email := by
        unfold processMessage
        rcases text with _ | t
        · simp [hstep]
        · by_cases h1 : t.data = []
          · simp [hr, hc, hb, hstep, h1]
          · by_cases h2 : jsToLower t = "skip"
            · simp [hr, hc, hb, hstep, h1, h2]
            · by_cases h3 : isValidYouTubeUrl t <;>
                simp [hr, hc, hb, hstep, h1, h2, h3]
      rcases hdi with h | h
      · left; exact h
      · right; left; exact ⟨Step.youtube, Step.email, rfl, h, rfl⟩
    · -- email step
      have hdi : (processMessage now cid s text contact).1.step = some Step.email ∨
          (processMessage now cid s text contact).1.step = some Step.subject := by
        unfold processMessage
        rcases text with _ | t
        · simp [hstep]
        · by_cases h1 : isValidEmail t
          · by_cases h2 : jsToLower t = "skip" <;> simp [hr, hc, hb, hstep, h1, h2]
          · simp [hr, hc, hb, hstep, h1]
      rcases hdi with h | h
      · left; exact h
      · right; left; exact ⟨Step.email, Step.subject, rfl, h, rfl⟩
    · -- subject step
      have hdi : (processMessage now cid s text contact).1.step = some Step.subject ∨
          (processMessage now cid s text contact).1.step = some Step.completed := by
        unfold processMessage
        rcases text with _ | t
        · simp [hstep]
        · by_cases hlen : jsLength t < 2 <;> simp [hr, hc, hb, hstep, hlen]
      rcases hdi with h | h
      · left; exact h
      · right; left; exact ⟨Step.subject, Step.completed, rfl, h, rfl⟩
    · -- completed step
      left
      simp [processMessage, hr, hc, hb, hstep]

theorem verifyWebhookP0_ack (st : GlobalState) (tx : Option String)
    (outcome : Except Unit (Option ChapaData)) (now : Int) :
    (verifyWebhookP0 st tx outcome now).2.1 = 200 := by
  unfold verifyWebhookP0
  rcases tx with _ | t
  · rfl
  · (repeat' split) <;> rfl

/-- Claim C1 (counterexample): the index.js `/verify` handler answers a
request with no `tx_ref` with HTTP 400, which is not a 2xx success
acknowledgment, refuting the claim that every path returns 2xx. -/
theorem verify_not_2xx_cex :
    (verifyWebhook {} none (Except.ok none) 0).2.1 = 400 ∧
    ¬(200 ≤ (verifyWebhook {} none (Except.ok none) 0).2.1 ∧
      (verifyWebhook {} none (Except.ok none) 0).2.1 < 300) := by
  decide

/-- Claim C1 (amended): in the part_000 variant every path of the
`/verify` webhook answers 200 and internal errors are swallowed; in the
index.js variant the already-processed and non-success-verification
paths answer 200, but a missing `tx_ref` answers 400, an unknown owning
session 404, and an internal error (axios throw, or a verification
response without a data object) 500. -/
theorem verifyStatus_spec (st : GlobalState) (tx : Option String)
    (outcome : Except Unit (Option ChapaData)) (now : Int) :
    ((verifyWebhookP0 st tx outcome now).2.1 = 200) ∧
    (tx = none → (verifyWebhook st tx outcome now).2.1 = 400) ∧
    (∀ t, tx = some t → st.processed.contains t = true →
      (verifyWebhook st tx outcome now).2.1 = 200) ∧
    (∀ t, tx = some t → st.processed.contains t = false →
      (outcome = Except.error () ∨ outcome = Except.ok none) →
      (verifyWebhook st tx outcome now).2.1 = 500) ∧
    (∀ t d, tx = some t → st.processed.contains t = false →
      outcome = Except.ok (some d) → d.status ≠ "success" →
      (verifyWebhook st tx outcome now).2.1 = 200) ∧
    (∀ t d, tx = some t → st.processed.contains t = false →
      outcome = Except.ok (some d) → d.status = "success" →
      ((extractId t).bind (findUser st.users) = none →
        (verifyWebhook st tx outcome now).2.1 = 404) ∧
      (∀ tid u, extractId t = some tid → findUser st.users tid = some u →
        (verifyWebhook st tx outcome now).2.1 = 200)) := by
  refine ⟨verifyWebhookP0_ack st tx outcome now, ?_, ?_, ?_, ?_, ?_⟩
  · rintro rfl
    rfl
  · rintro t rfl h2
    have h3 : t ∈ st.processed := by simpa using h2
    simp [verifyWebhook, h3]
  · rintro t rfl h2 hout
    have h3 : t ∉ st.processed := by simpa using h2
    rcases hout with rfl | rfl <;> simp [verifyWebhook, h3]
  · rintro t d rfl h2 rfl hs
    have h3 : t ∉ st.processed := by simpa using h2
    simp [verifyWebhook, h3, hs]
  · rintro t d rfl h2 rfl hs
    have h3 : t ∉ st.processed := by simpa using h2
    constructor
    · intro hnone
      rcases hext : extractId t with _ | tid
      · simp [verifyWebhook, h3, hs, hext]
      · rw [hext] at hnone
        simp only [Option.some_bind] at hnone
        simp [verifyWebhook, h3, hs, hext, hnone]
    · intro tid u hext hu
      simp [verifyWebhook, h3, hs, hext, hu]

/-- Witness for the amended C1 at concrete inputs. -/
theorem verifyStatus_spec_witness :
    (verifyWebhook { processed := ["t"] } (some "t") (Except.ok none) 0).2.1 = 200 ∧
    (verifyWebhook {} (some "t") (Except.error ()) 0).2.1 = 500 :=
  ⟨(verifyStatus_spec { processed := ["t"] } (some "t") (Except.ok none) 0).2.2.1
     "t" rfl (by decide),
   (verifyStatus_spec {} (some "t") (Except.error ()) 0).2.2.2.1
     "t" rfl (by decide) (Or.inl rfl)⟩

theorem findUser_setUser (users : List (Nat × Session)) (id : Nat) (v u : Session)
    (h : findUser users id = some u) :
    findUser (setUser users id v) id = some v := by
  induction users with
  | nil => simp [findUser] at h
  | cons p rest ih =>
    by_cases hp : p.1 = id
    · simp [findUser, setUser, List.find?_cons, hp]
    · simp only [findUser, setUser, List.map_cons, if_neg hp] at *
      simp only [List.find?_cons, decide_eq_false hp] at h ⊢
      exact ih h

/-- Claim C2: a reference already in `processedTransactions` is
acknowledged with 200 and no state change and no notifications; and a
successful first delivery performs exactly one transition of the owning
session to `payment_verified` with exactly one pair of notifications,
after which any second delivery of the same reference is acknowledged
without reprocessing. -/
theorem verify_idempotent (st : GlobalState) (tx : String)
    (d : ChapaData) (now1 : Int) (tid : Nat) (u : Session)
    (hnot : st.processed.contains tx = false)
    (hd : d.status = "success")
    (hext : extractId tx = some tid)
    (hu : findUser st.users tid = some u) :
    (∀ st2 o2 n2, st2.processed.contains tx = true →
      verifyWebhook st2 (some tx) o2 n2 = (st2, 200, [])) ∧
    ((verifyWebhook st (some tx) (Except.ok (some d)) now1).2.2 =
      [Out.paymentVerifiedToUser tid, Out.paymentReceivedToAdmin]) ∧
    (findUser (verifyWebhook st (some tx) (Except.ok (some d)) now1).1.users tid =
      some { u with status := Status.payment_verified, paidAmount := some d.amount,
                    commission := some (d.amount * TEACHER_PERCENT),
                    paymentDate := some now1 }) ∧
    (∀ o2 n2,
      verifyWebhook (verifyWebhook st (some tx) (Except.ok (some d)) now1).1
        (some tx) o2 n2 =
      ((verifyWebhook st (some tx) (Except.ok (some d)) now1).1, 200, [])) := by
  have hrun : verifyWebhook st (some tx) (Except.ok (some d)) now1 =
      ({ st with
          users := setUser st.users tid
            { u with status := Status.payment_verified, paidAmount := some d.amount,
                     commission := some (d.amount * TEACHER_PERCENT),
                     paymentDate := some now1 },
          processed := tx :: st.processed },
       200, [Out.paymentVerifiedToUser tid, Out.paymentReceivedToAdmin]) := by
    have h3 : tx ∉ st.processed := by simpa using hnot
    simp [verifyWebhook, h3, hd, hext, hu]
  refine ⟨?_, ?_, ?_, ?_⟩
  · intro st2 o2 n2 h2
    have h3 : tx ∈ st2.processed := by simpa using h2
    simp [verifyWebhook, h3]
  · rw [hrun]
  · rw [hrun]
    exact findUser_setUser st.users tid _ u hu
  · intro o2 n2
    rw [hrun]
    simp [verifyWebhook]

/-- Witness for C2 at a concrete store and reference. -/
theorem verify_idempotent_witness :
    (verifyWebhook { users := [(7, { status := Status.approved })] } (some "tx-5-7")
      (Except.ok (some { status := "success", amount := 99 })) 3).2.2 =
      [Out.paymentVerifiedToUser 7, Out.paymentReceivedToAdmin] :=
  (verify_idempotent { users := [(7, { status := Status.approved })] } "tx-5-7"
    { status := "success", amount := 99 } 3 7 { status := Status.approved }
    (by decide) rfl (by decide) (by decide)).2.1

theorem digitChar_isDigit : ∀ n, n < 10 → isDigitChar (Nat.digitChar n) = true := by
  decide

theorem digitChar_toNat : ∀ n, n < 10 → (Nat.digitChar n).toNat = 48 + n := by
  decide

theorem natCharsAux_digits (fuel : Nat) :
    ∀ n, n < fuel → ∀ c ∈ natCharsAux fuel n, isDigitChar c = true := by
  induction fuel with
  | zero => exact fun n h => absurd h (Nat.not_lt_zero n)
  | succ f ih =>
    intro n h c hc
    rw [natCharsAux] at hc
    by_cases h10 : n < 10
    · rw [if_pos h10] at hc
      simp at hc
      subst hc
      exact digitChar_isDigit n h10
    · rw [if_neg h10] at hc
      rcases List.mem_append.mp hc with h1 | h1
      · have hdiv : n / 10 < f := by
          have := Nat.div_lt_self (by omega : 0 < n) (by omega : 1 < 10)
          omega
        exact ih (n / 10) hdiv c h1
      · simp at h1
        subst h1
        exact digitChar_isDigit (n % 10) (Nat.mod_lt n (by omega))

theorem natChars_digits (n : Nat) : ∀ c ∈ natChars n, isDigitChar c = true :=
  natCharsAux_digits (n + 1) n (Nat.lt_succ_self n)

theorem natChars_ne_nil (n : Nat) : natChars n ≠ [] := by
  rw [natChars, natCharsAux]
  by_cases h10 : n < 10 <;> simp [h10]

theorem natChars_no_dash (n : Nat) : ∀ c ∈ natChars n, c ≠ '-' := by
  intro c hc heq
  have hd := natChars_digits n c hc
  rw [heq] at hd
  exact absurd hd (by decide)

theorem digitsVal_append (l : List Char) (c : Char) :
    digitsVal (l ++ [c]) = 10 * digitsVal l + (c.toNat - 48) := by
  simp [digitsVal, List.foldl_append]

theorem natCharsAux_val (fuel : Nat) :
    ∀ n, n < fuel → digitsVal (natCharsAux fuel n) = n := by
  induction fuel with
  | zero => exact fun n h => absurd h (Nat.not_lt_zero n)
  | succ f ih =>
    intro n h
    rw [natCharsAux]
    by_cases h10 : n < 10
    · rw [if_pos h10]
      have ht := digitChar_toNat n h10
      simp [digitsVal, ht]
    · rw [if_neg h10, digitsVal_append]
      have hdiv : n / 10 < f := by
        have := Nat.div_lt_self (by omega : 0 < n) (by omega : 1 < 10)
        omega
      rw [ih (n / 10) hdiv, digitChar_toNat (n % 10) (Nat.mod_lt n (by omega))]
      omega

theorem natChars_val (n : Nat) : digitsVal (natChars n) = n :=
  natCharsAux_val (n + 1) n (Nat.lt_succ_self n)

theorem natChars_inj (a b : Nat) (h : natChars a = natChars b) : a = b := by
  have hv := natChars_val a
  rw [h, natChars_val b] at hv
  exact hv.symm

theorem takeWhile_append_stop (p : Char → Bool) (l1 l2 : List Char) (x : Char)
    (h1 : ∀ c ∈ l1, p c = true) (hx : p x = false) :
    (l1 ++ x :: l2).takeWhile p = l1 := by
  induction l1 with
  | nil => simp [List.takeWhile_cons, hx]
  | cons a l ih =>
    have ha := h1 a (by simp)
    rw [List.cons_append, List.takeWhile_cons_of_pos ha,
      ih (fun c hc => h1 c (by simp [hc]))]

theorem lastDashChunk_append (a b : List Char) (hb : ∀ c ∈ b, c ≠ '-') :
    lastDashChunk (a ++ '-' :: b) = b := by
  unfold lastDashChunk
  simp only [List.reverse_append, List.reverse_cons, List.append_assoc,
    List.singleton_append]
  rw [takeWhile_append_stop]
  · exact List.reverse_reverse b
  · intro c hc
    have hcb : c ∈ b := List.mem_reverse.mp hc
    simpa using hb c hcb
  · decide

theorem append_dash_inj (a1 : List Char) :
    ∀ a2 b1 b2 : List Char, '-' ∉ a1 → '-' ∉ a2 →
      a1 ++ '-' :: b1 = a2 ++ '-' :: b2 → a1 = a2 ∧ b1 = b2 := by
  induction a1 with
  | nil =>
    intro a2 b1 b2 h1 h2 heq
    cases a2 with
    | nil =>
      simp at heq
      exact ⟨rfl, heq⟩
    | cons c r =>
      simp at heq
      obtain ⟨hcc, -⟩ := heq
      exact absurd (by rw [← hcc]; exact List.mem_cons_self _ _) h2
  | cons c r ih =>
    intro a2 b1 b2 h1 h2 heq
    cases a2 with
    | nil =>
      simp at heq
      obtain ⟨hcc, -⟩ := heq
      exact absurd (by rw [hcc]; exact List.mem_cons_self _ _) h1
    | cons d r2 =>
      simp only [List.cons_append, List.cons.injEq] at heq
      obtain ⟨rfl, heq2⟩ := heq
      have hmain := ih r2 b1 b2 (fun h => h1 (List.mem_cons_of_mem _ h))
        (fun h => h2 (List.mem_cons_of_mem _ h)) heq2
      exact ⟨by rw [hmain.1], hmain.2⟩

/-- Claim C5: a transaction reference minted at approval embeds the
target actor identity as its final dash-delimited segment, and the
webhook's extraction (numeric parse of the last dash-separated segment)
recovers exactly that identity without a lookup table; two minted
references coincide exactly when both the minting time and the target
coincide, so references minted at distinct times or for distinct
targets are distinct and never reused. -/
theorem txRef_correlation (now target now2 target2 : Nat) :
    extractId (mkTxRef now target) = some target ∧
    (mkTxRef now target = mkTxRef now2 target2 ↔ (now = now2 ∧ target = target2)) := by
  constructor
  · show jsParseNat (lastDashChunk (mkTxRefChars now target)) = some target
    unfold mkTxRefChars
    rw [lastDashChunk_append _ _ (natChars_no_dash target)]
    unfold jsParseNat
    rw [if_neg, if_pos]
    · rw [natChars_val]
    · exact List.all_eq_true.mpr (natChars_digits target)
    · simp only [List.isEmpty_eq_true]
      exact natChars_ne_nil target
  · constructor
    · intro h
      have hchars : mkTxRefChars now target = mkTxRefChars now2 target2 :=
        congrArg String.data h
      unfold mkTxRefChars at hchars
      simp only [show ("tx-".toList : List Char) = ['t', 'x', '-'] from rfl,
        List.cons_append, List.nil_append, List.append_assoc,
        List.cons.injEq, true_and] at hchars
      have hsplit := append_dash_inj (natChars now) (natChars now2)
        (natChars target) (natChars target2)
        (fun hmem => natChars_no_dash now '-' hmem rfl)
        (fun hmem => natChars_no_dash now2 '-' hmem rfl) hchars
      exact ⟨natChars_inj _ _ hsplit.1, natChars_inj _ _ hsplit.2⟩
    · rintro ⟨rfl, rfl⟩
      rfl

theorem emailLocalAux_iff (l : List Char) :
    ∀ R, emailLocalAux l = some R ↔
      ∃ A, l = A ++ '@' :: R ∧ ∀ c ∈ A, emailChar c = true := by
  induction l with
  | nil =>
    intro R
    rw [emailLocalAux]
    constructor
    · intro h
      cases h
    · rintro ⟨A, hA, -⟩
      exact absurd hA.symm (by simp)
  | cons c rest ih =>
    intro R
    by_cases hc : c = '@'
    · subst hc
      rw [emailLocalAux, if_pos rfl]
      constructor
      · intro h
        injection h with h
        subst h
        exact ⟨[], rfl, by simp⟩
      · rintro ⟨A, hA, hall⟩
        cases A with
        | nil =>
          simp at hA
          rw [hA]
        | cons a A2 =>
          simp at hA
          have hea := hall a (by simp)
          rw [← hA.1] at hea
          exact absurd hea (by decide)
    · rw [emailLocalAux, if_neg hc]
      by_cases he : emailChar c = true
      · rw [if_pos he, ih R]
        constructor
        · rintro ⟨A, hA, hall⟩
          refine ⟨c :: A, by simp [hA], ?_⟩
          intro x hx
          rcases List.mem_cons.mp hx with rfl | hx2
          · exact he
          · exact hall x hx2
        · rintro ⟨A, hA, hall⟩
          cases A with
          | nil =>
            simp at hA
            exact absurd hA.1 hc
          | cons a A2 =>
            simp only [List.cons_append, List.cons.injEq] at hA
            obtain ⟨rfl, hA2⟩ := hA
            exact ⟨A2, hA2, fun x hx => hall x (by simp [hx])⟩
      · rw [if_neg he]
        constructor
        · intro h
          cases h
        · rintro ⟨A, hA, hall⟩
          cases A with
          | nil =>
            simp at hA
            exact absurd hA.1 hc
          | cons a A2 =>
            simp only [List.cons_append, List.cons.injEq] at hA
            obtain ⟨rfl, -⟩ := hA
            exact absurd (hall _ (List.mem_cons_self _ _)) he

theorem emailLocal_iff (l R : List Char) :
    emailLocal l = some R ↔
      ∃ A, l = A ++ '@' :: R ∧ A ≠ [] ∧ ∀ c ∈ A, emailChar c = true := by
  cases l with
  | nil =>
    rw [emailLocal]
    constructor
    · intro h
      cases h
    · rintro ⟨A, hA, -, -⟩
      exact absurd hA.symm (by simp)
  | cons c rest =>
    rw [emailLocal]
    by_cases he : emailChar c = true
    · rw [if_pos he, emailLocalAux_iff]
      constructor
      · rintro ⟨A, hA, hall⟩
        refine ⟨c :: A, by simp [hA], by simp, ?_⟩
        intro x hx
        rcases List.mem_cons.mp hx with rfl | hx2
        · exact he
        · exact hall x hx2
      · rintro ⟨A, hA, hne, hall⟩
        cases A with
        | nil => exact absurd rfl hne
        | cons a A2 =>
          simp only [List.cons_append, List.cons.injEq] at hA
          obtain ⟨rfl, hA2⟩ := hA
          exact ⟨A2, hA2, fun x hx => hall x (by simp [hx])⟩
    · rw [if_neg he]
      constructor
      · intro h
        cases h
      · rintro ⟨A, hA, hne, hall⟩
        cases A with
        | nil => exact absurd rfl hne
        | cons a A2 =>
          simp only [List.cons_append, List.cons.injEq] at hA
          obtain ⟨rfl, -⟩ := hA
          exact absurd (hall _ (List.mem_cons_self _ _)) he

theorem emailDotAux_iff (r : List Char) :
    emailDotAux r = true ↔
      ∃ B C, r = B ++ '.' :: C ∧ C ≠ [] ∧ (∀ c ∈ B, emailChar c = true) ∧
        (∀ c ∈ C, emailChar c = true) := by
  induction r with
  | nil =>
    rw [emailDotAux]
    constructor
    · intro h
      cases h
    · rintro ⟨B, C, hBC, -, -, -⟩
      exact absurd hBC.symm (by simp)
  | cons c rest ih =>
    rw [emailDotAux]
    simp only [Bool.or_eq_true, Bool.and_eq_true]
    constructor
    · rintro (⟨⟨hdot, hne⟩, hall⟩ | ⟨he, hrec⟩)
      · have hc : c = '.' := by simpa using hdot
        subst hc
        refine ⟨[], rest, rfl, ?_, by simp, List.all_eq_true.mp hall⟩
        intro hnil
        rw [hnil] at hne
        exact absurd hne (by decide)
      · obtain ⟨B, C, hBC, hCne, hB, hC⟩ := ih.mp hrec
        refine ⟨c :: B, C, by simp [hBC], hCne, ?_, hC⟩
        intro x hx
        rcases List.mem_cons.mp hx with rfl | hx2
        · exact he
        · exact hB x hx2
    · rintro ⟨B, C, hBC, hCne, hB, hC⟩
      cases B with
      | nil =>
        simp only [List.nil_append, List.cons.injEq] at hBC
        obtain ⟨rfl, rfl⟩ := hBC
        left
        refine ⟨⟨by simp, ?_⟩, List.all_eq_true.mpr hC⟩
        simpa [List.isEmpty_eq_true] using hCne
      | cons b B2 =>
        simp only [List.cons_append, List.cons.injEq] at hBC
        obtain ⟨rfl, hBC2⟩ := hBC
        right
        exact ⟨hB _ (List.mem_cons_self _ _),
          ih.mpr ⟨B2, C, hBC2, hCne, fun x hx => hB x (by simp [hx]), hC⟩⟩

theorem emailTail_iff (r : List Char) :
    emailTail r = true ↔
      ∃ B C, r = B ++ '.' :: C ∧ B ≠ [] ∧ C ≠ [] ∧
        (∀ c ∈ B, emailChar c = true) ∧ (∀ c ∈ C, emailChar c = true) := by
  cases r with
  | nil =>
    rw [emailTail]
    constructor
    · intro h
      cases h
    · rintro ⟨B, C, hBC, -, -, -, -⟩
      exact absurd hBC.symm (by simp)
  | cons c rest =>
    rw [emailTail]
    simp only [Bool.and_eq_true]
    rw [emailDotAux_iff]
    constructor
    · rintro ⟨he, B, C, hBC, hCne, hB, hC⟩
      refine ⟨c :: B, C, by simp [hBC], by simp, hCne, ?_, hC⟩
      intro x hx
      rcases List.mem_cons.mp hx with rfl | hx2
      · exact he
      · exact hB x hx2
    · rintro ⟨B, C, hBC, hBne, hCne, hB, hC⟩
      cases B with
      | nil => exact absurd rfl hBne
      | cons b B2 =>
        simp only [List.cons_append, List.cons.injEq] at hBC
        obtain ⟨rfl, hBC2⟩ := hBC
        exact ⟨hB _ (List.mem_cons_self _ _),
          B2, C, hBC2, hCne, fun x hx => hB x (by simp [hx]), hC⟩

theorem emailRegexTest_iff (l : List Char) :
    emailRegexTest l = true ↔
      ∃ A B C, l = A ++ '@' :: (B ++ '.' :: C) ∧ A ≠ [] ∧ B ≠ [] ∧ C ≠ [] ∧
        (∀ c ∈ A, emailChar c = true) ∧ (∀ c ∈ B, emailChar c = true) ∧
        (∀ c ∈ C, emailChar c = true) := by
  rcases hloc : emailLocal l with _ | R
  · rw [emailRegexTest, hloc]
    constructor
    · intro h
      cases h
    · rintro ⟨A, B, C, hl, hAne, -, -, hA, -, -⟩
      have h2 : emailLocal l = some (B ++ '.' :: C) :=
        (emailLocal_iff l _).mpr ⟨A, hl, hAne, hA⟩
      rw [hloc] at h2
      cases h2
  · rw [emailRegexTest, hloc]
    constructor
    · intro ht
      obtain ⟨A, hl, hAne, hA⟩ := (emailLocal_iff l R).mp hloc
      obtain ⟨B, C, hR, hBne, hCne, hB, hC⟩ := (emailTail_iff R).mp ht
      exact ⟨A, B, C, by rw [hl, hR], hAne, hBne, hCne, hA, hB, hC⟩
    · rintro ⟨A, B, C, hl, hAne, hBne, hCne, hA, hB, hC⟩
      have h2 : emailLocal l = some (B ++ '.' :: C) :=
        (emailLocal_iff l _).mpr ⟨A, hl, hAne, hA⟩
      rw [hloc] at h2
      injection h2 with h2
      exact (emailTail_iff R).mpr ⟨B, C, h2, hBne, hCne, hB, hC⟩

/-- Claim C8 (counterexample): the index.js email validator accepts
`"a b@c.d"`, a string containing whitespace, which the claim says must
be rejected (and which the part_001 regex variant does reject) — the
index.js check only asks for an `@` and a `.` anywhere. -/
theorem isValidEmail_cex :
    isValidEmail "a b@c.d" = true ∧
    ("a b@c.d".toList.any jsWhitespace) = true ∧
    isValidEmailRegex "a b@c.d" = false := by decide

/-- Claim C8 (amended): the part_001 email validator accepts the
case-insensitive literal `skip` and otherwise exactly the strings of
shape `<non-space-non-@>+ @ <non-space-non-@>+ . <non-space-non-@>+`;
the index.js/part_000 validator accepts `skip` and otherwise any string
containing both an `@` and a `.`, regardless of whitespace or of the
dot's position. -/
theorem isValidEmail_spec (s : String) :
    (isValidEmailRegex s = true ↔
      (jsToLower s = "skip" ∨
        ∃ A B C, s.toList = A ++ '@' :: (B ++ '.' :: C) ∧ A ≠ [] ∧ B ≠ [] ∧
          C ≠ [] ∧ (∀ c ∈ A, emailChar c = true) ∧ (∀ c ∈ B, emailChar c = true) ∧
          (∀ c ∈ C, emailChar c = true))) ∧
    (isValidEmail s = true ↔
      (jsToLower s = "skip" ∨
        (containsChar s '@' = true ∧ containsChar s '.' = true))) := by
  constructor
  · by_cases hs : jsToLower s = "skip"
    · simp [isValidEmailRegex, hs]
    · rw [isValidEmailRegex, if_neg hs, emailRegexTest_iff]
      simp [hs]
  · by_cases hs : jsToLower s = "skip"
    · simp [isValidEmail, hs]
    · rw [isValidEmail, if_neg hs]
      simp [hs]

end OTS
